import Mathlib

/-!
Shallow embedding of the `LazyVec` container from `src/lib.rs` of the
`lazy_vec` crate, together with theorems settling the specification claims.

Modelling conventions:
  * `Cow<'static, T>` cells are modelled by the inductive `Cow T`:
    `Cow.Shared` stands for `Cow::Borrowed(self.default)` (every borrowed
    cell in the source points at the container's single default value) and
    `Cow.Owned v` stands for `Cow::Owned(v)` (with `<T as ToOwned>::Owned`
    identified with `T`, i.e. the `Clone` case).
  * `Vec<Cow<'static, T>>` becomes `List (Cow T)`; `usize` becomes `Nat`.
  * Rust panics (failed asserts, out-of-bounds `Vec` indexing, `usize`
    underflow in debug builds, `Iterator::next().unwrap()` on an exhausted
    iterator) and undefined behaviour of the `unsafe` pointer accesses
    (dereferencing past the buffer) are modelled as `none` of an `Option`
    result.
  * Mutable references returned to the caller are modelled by the raw
    offset they point at, plus the container state after the side effects
    (`Cow::to_mut` promotions) of obtaining them; a later store through
    such a reference is `writeThrough`.
-/

inductive Cow (T : Type) where
  | Shared : Cow T
  | Owned : T → Cow T
deriving DecidableEq, Repr

/-- The value a cell denotes: `Cow::Borrowed(default)` dereferences to the
container's default, `Cow::Owned(v)` to `v`. -/
def Cow.value {T : Type} (default : T) : Cow T → T
  | Cow.Shared => default
  | Cow.Owned v => v

/-- `pub struct LazyVec<T, I = usize>` with fields `label`, `len`, `raw`,
`default` (the phantom index marker has no runtime content and is dropped;
the typed index `I` is fixed to raw `usize` offsets, i.e. `Nat`). -/
structure LazyVec (T : Type) where
  label : String
  len : Nat
  raw : List (Cow T)
  default : T
deriving DecidableEq, Repr

namespace LazyVec

variable {T : Type}

/-- `const DEFAULT_LEN: usize = 4 * 1024;` -/
def DEFAULT_LEN : Nat := 4 * 1024

/-- `pub fn with_len(label, len, default) -> Self`: sets the `len` field to
the argument and fills `raw` with `len` borrowed (shared) cells. -/
def with_len (label : String) (len : Nat) (default : T) : LazyVec T :=
  { label := label
    len := len
    raw := List.replicate len Cow.Shared
    default := default }

/-- `pub fn new(label, default) -> Self = with_len(label, DEFAULT_LEN, default)`. -/
def new (label : String) (default : T) : LazyVec T :=
  with_len label DEFAULT_LEN default

/-- `Vec::resize(new_len, value)`: truncates when `new_len ≤ length`,
extends with copies of `value` otherwise. -/
def vecResize (l : List (Cow T)) (n : Nat) (v : Cow T) : List (Cow T) :=
  if n ≤ l.length then l.take n else l ++ List.replicate (n - l.length) v

/-- `fn grow_to(&mut self, new_len)`: when `new_len > self.len` it resizes
`raw` to `new_len` filling with borrowed cells and then sets
`self.len = new_len`; otherwise it does nothing (the duration logging has
no functional effect and is not modelled). -/
def grow_to (c : LazyVec T) (new_len : Nat) : LazyVec T :=
  if c.len < new_len then
    { c with raw := vecResize c.raw new_len Cow.Shared, len := new_len }
  else c

/-- The loop `for i in 0..len { self.raw[i] = Cow::Borrowed(self.default) }`:
sets indices `0, 1, …, n-1` to `Shared` (each `List.set` at an index that
is in bounds; the out-of-bounds panic is handled by the caller `reinit`). -/
def setSharedBelow (raw : List (Cow T)) : Nat → List (Cow T)
  | 0 => raw
  | n + 1 => (setSharedBelow raw n).set n Cow.Shared

/-- `pub fn reinit(&mut self, len)`: `grow_to(len)` then reset cells
`0 .. len` to borrowed. `none` models the `self.raw[i]` index panic when
the store is shorter than `len` after `grow_to` (possible only for states
violating `len ≤ raw.length`). -/
def reinit (c : LazyVec T) (n : Nat) : Option (LazyVec T) :=
  if n ≤ (c.grow_to n).raw.length then
    some { c.grow_to n with raw := setSharedBelow (c.grow_to n).raw n }
  else none

/-- `pub fn push(&mut self, val) -> I`: records `idx = self.len` first;
if `self.len < self.raw.len()` it overwrites the cell at `self.len` and
increments `self.len`, otherwise it appends to `raw` (without touching
`self.len`). Returns the recorded index and the new state. -/
def push (c : LazyVec T) (val : T) : Nat × LazyVec T :=
  if c.len < c.raw.length then
    (c.len, { c with raw := c.raw.set c.len (Cow.Owned val), len := c.len + 1 })
  else
    (c.len, { c with raw := c.raw ++ [Cow.Owned val] })

/-- `pub fn pop(&mut self) -> Owned`: swaps `self.raw[self.len]` with a
borrowed placeholder (panics when `self.len` is out of bounds of `raw`),
decrements `self.len` (debug-mode `usize` underflow panic when it is `0`),
asserts the swapped-out value was `Cow::Owned` and returns it.
All three panics are `none`. -/
def pop (c : LazyVec T) : Option (T × LazyVec T) :=
  if h : c.len < c.raw.length then
    if c.len = 0 then none
    else
      match c.raw.get ⟨c.len, h⟩ with
      | Cow.Owned v =>
          some (v, { c with raw := c.raw.set c.len Cow.Shared, len := c.len - 1 })
      | Cow.Shared => none
  else none

/-- `impl Index for LazyVec`: asserts `idx < self.len` then returns
`self.raw.get_unchecked(idx)`, deref-coerced from `&Cow<T>` to `&T`.
An index passing the assert but outside `raw` would be undefined
behaviour of `get_unchecked`; both failures are `none`. -/
def index (c : LazyVec T) (idx : Nat) : Option T :=
  if idx < c.len then
    match c.raw[idx]? with
    | some cow => some (cow.value c.default)
    | none => none
  else none

/-- `impl IndexMut for LazyVec`: asserts `idx < self.len` then returns
`self.raw.get_unchecked_mut(idx).to_mut()`, promoting a borrowed cell to
an owned clone of the default. The returned `&mut T` is modelled as the
value currently behind it plus the post-promotion container. -/
def index_mut (c : LazyVec T) (idx : Nat) : Option (T × LazyVec T) :=
  if idx < c.len then
    match c.raw[idx]? with
    | some cow =>
        some (cow.value c.default,
              { c with raw := c.raw.set idx (Cow.Owned (cow.value c.default)) })
    | none => none
  else none

/-- A store through a previously obtained `&mut T` pointing at cell `idx`:
the owned value in that cell is replaced (the cell was already promoted to
`Owned` when the reference was produced). -/
def writeThrough (c : LazyVec T) (idx : Nat) (v : T) : LazyVec T :=
  { c with raw := c.raw.set idx (Cow.Owned v) }

/-- `itertools`' `unique()` adapter: keeps the first occurrence of each
element, in order; `seen` accumulates the elements already produced. -/
def uniqueAux (seen : List Nat) : List Nat → List Nat
  | [] => []
  | x :: xs => if x ∈ seen then uniqueAux seen xs else x :: uniqueAux (x :: seen) xs

/-- `idxs.into_iter().unique()` collected in order of first occurrence. -/
def uniqueFirst (l : List Nat) : List Nat :=
  uniqueAux [] l

/-- `cell.to_mut()` applied through the raw pointer at offset `i`:
a borrowed cell is replaced by an owned clone of the default. -/
def promote (c : LazyVec T) (i : Nat) : LazyVec T :=
  match c.raw[i]? with
  | some Cow.Shared => { c with raw := c.raw.set i (Cow.Owned c.default) }
  | _ => c

/-- The promotion loop of `get_disjoint_mut` over the deduplicated offsets. -/
def promoteAll (c : LazyVec T) : List Nat → LazyVec T
  | [] => c
  | i :: is => promoteAll (promote c i) is

/-- `pub fn get_disjoint_mut(&mut self, idxs: [usize; N]) -> [&mut T; N]`:
deduplicates `idxs` with `unique()` and refills an `N`-array from the
result — `iter.next().unwrap()` panics when fewer than `N` unique offsets
remain (so the following `assert!(unique_idxs.len() == N)` never fires).
Each unique offset is then dereferenced through a raw pointer into `raw`
and its cell promoted via `to_mut`; an offset outside `raw` would be
undefined behaviour (`none`). No comparison with `self.len` is made.
The returned array is modelled as the list of offsets the references
point at, plus the post-promotion container. -/
def get_disjoint_mut (c : LazyVec T) (idxs : List Nat) :
    Option (List Nat × LazyVec T) :=
  if (uniqueFirst idxs).length < idxs.length then none
  else if (uniqueFirst idxs).any (fun i => c.raw.length ≤ i) then none
  else some (uniqueFirst idxs, promoteAll c (uniqueFirst idxs))

/-- `pub fn len(&self) -> usize` is the `len` field (`LazyVec.len`). -/
def lenFn (c : LazyVec T) : Nat := c.len

/-- `pub fn is_empty(&self) -> bool`. -/
def is_empty (c : LazyVec T) : Bool := c.len == 0

/-- The length/capacity invariant claimed by the spec:
`logical_length ≤ physical_capacity`. (`0 ≤ len` is automatic for `Nat`.) -/
def WF (c : LazyVec T) : Prop := c.len ≤ c.raw.length

instance (c : LazyVec T) : Decidable (WF c) := by
  unfold WF
  infer_instance

end LazyVec

/-! ## Helper lemmas -/

theorem LazyVec.vecResize_length {T : Type} (l : List (Cow T)) (n : Nat) (v : Cow T) :
    (LazyVec.vecResize l n v).length = n := by
  unfold LazyVec.vecResize
  split
  · simp [Nat.min_eq_left]
    omega
  · simp
    omega

theorem LazyVec.setSharedBelow_length {T : Type} (raw : List (Cow T)) :
    ∀ n, (LazyVec.setSharedBelow raw n).length = raw.length := by
  intro n
  induction n with
  | zero => rfl
  | succ m ih => simp [LazyVec.setSharedBelow, ih]

theorem LazyVec.mem_of_mem_uniqueAux {x : Nat} :
    ∀ (l seen : List Nat), x ∈ LazyVec.uniqueAux seen l → x ∈ l := by
  intro l
  induction l with
  | nil => intro seen h; cases h
  | cons a as ih =>
    intro seen h
    simp only [LazyVec.uniqueAux] at h
    by_cases ha : a ∈ seen
    · rw [if_pos ha] at h
      exact List.mem_cons_of_mem a (ih seen h)
    · rw [if_neg ha] at h
      rcases List.mem_cons.1 h with rfl | h'
      · exact List.mem_cons_self _ _
      · exact List.mem_cons_of_mem a (ih (a :: seen) h')

theorem LazyVec.uniqueAux_eq_self :
    ∀ (l seen : List Nat), l.Nodup → (∀ x ∈ l, x ∉ seen) →
      LazyVec.uniqueAux seen l = l := by
  intro l
  induction l with
  | nil => intro seen _ _; rfl
  | cons a as ih =>
    intro seen hnd hdisj
    have ha : a ∉ seen := hdisj a (List.mem_cons_self _ _)
    simp only [LazyVec.uniqueAux, if_neg ha]
    congr 1
    refine ih (a :: seen) (List.Nodup.of_cons hnd) ?_
    intro x hx
    simp only [List.mem_cons]
    rintro (rfl | hxs)
    · exact (List.nodup_cons.1 hnd).1 hx
    · exact hdisj x (List.mem_cons_of_mem a hx) hxs

theorem LazyVec.uniqueFirst_eq_self {l : List Nat} (h : l.Nodup) :
    LazyVec.uniqueFirst l = l :=
  LazyVec.uniqueAux_eq_self l [] h (by simp)

theorem LazyVec.promote_len {T : Type} (c : LazyVec T) (i : Nat) :
    (c.promote i).len = c.len := by
  rcases h : c.raw[i]? with _ | cow
  · simp [LazyVec.promote, h]
  · cases cow <;> simp [LazyVec.promote, h]

theorem LazyVec.promote_default {T : Type} (c : LazyVec T) (i : Nat) :
    (c.promote i).default = c.default := by
  rcases h : c.raw[i]? with _ | cow
  · simp [LazyVec.promote, h]
  · cases cow <;> simp [LazyVec.promote, h]

theorem LazyVec.promote_raw_length {T : Type} (c : LazyVec T) (i : Nat) :
    (c.promote i).raw.length = c.raw.length := by
  rcases h : c.raw[i]? with _ | cow
  · simp [LazyVec.promote, h]
  · cases cow <;> simp [LazyVec.promote, h]

theorem LazyVec.promoteAll_len {T : Type} (u : List Nat) (c : LazyVec T) :
    (c.promoteAll u).len = c.len := by
  induction u generalizing c with
  | nil => rfl
  | cons i is ih =>
    simp only [LazyVec.promoteAll]
    rw [ih, LazyVec.promote_len]

theorem LazyVec.promoteAll_default {T : Type} (u : List Nat) (c : LazyVec T) :
    (c.promoteAll u).default = c.default := by
  induction u generalizing c with
  | nil => rfl
  | cons i is ih =>
    simp only [LazyVec.promoteAll]
    rw [ih, LazyVec.promote_default]

theorem LazyVec.promoteAll_raw_length {T : Type} (u : List Nat) (c : LazyVec T) :
    (c.promoteAll u).raw.length = c.raw.length := by
  induction u generalizing c with
  | nil => rfl
  | cons i is ih =>
    simp only [LazyVec.promoteAll]
    rw [ih, LazyVec.promote_raw_length]

theorem LazyVec.promote_owned_self {T : Type} (c : LazyVec T) (i : Nat)
    (h : i < c.raw.length) :
    ∃ w, (c.promote i).raw[i]? = some (Cow.Owned w) := by
  rcases hi : c.raw[i]? with _ | cow
  · rw [List.getElem?_eq_getElem h] at hi
    cases hi
  · cases cow with
    | Shared =>
      exact ⟨c.default, by simp [LazyVec.promote, hi, List.getElem?_set_eq_of_lt _ h]⟩
    | Owned w =>
      exact ⟨w, by simp [LazyVec.promote, hi]⟩

theorem LazyVec.promote_of_owned {T : Type} (c : LazyVec T) (j : Nat) (w : T)
    (h : c.raw[j]? = some (Cow.Owned w)) :
    c.promote j = c := by
  simp [LazyVec.promote, h]

theorem LazyVec.promote_raw_getElem_ne {T : Type} (c : LazyVec T) (i j : Nat)
    (h : i ≠ j) :
    (c.promote i).raw[j]? = c.raw[j]? := by
  rcases hi : c.raw[i]? with _ | cow
  · simp [LazyVec.promote, hi]
  · cases cow with
    | Shared => simp [LazyVec.promote, hi, List.getElem?_set_ne h]
    | Owned v => simp [LazyVec.promote, hi]

theorem LazyVec.promote_owned_mono {T : Type} (c : LazyVec T) (i j : Nat) (w : T)
    (h : c.raw[j]? = some (Cow.Owned w)) :
    (c.promote i).raw[j]? = some (Cow.Owned w) := by
  by_cases hij : i = j
  · subst hij
    rw [LazyVec.promote_of_owned c i w h, h]
  · rw [LazyVec.promote_raw_getElem_ne c i j hij, h]

theorem LazyVec.promoteAll_owned_mono {T : Type} (u : List Nat) (c : LazyVec T)
    (j : Nat) (w : T) (h : c.raw[j]? = some (Cow.Owned w)) :
    (c.promoteAll u).raw[j]? = some (Cow.Owned w) := by
  induction u generalizing c with
  | nil => exact h
  | cons a as ih =>
    simp only [LazyVec.promoteAll]
    exact ih (c.promote a) (LazyVec.promote_owned_mono c a j w h)

theorem LazyVec.promoteAll_owned {T : Type} (u : List Nat) (c : LazyVec T)
    (i : Nat) (hmem : i ∈ u) (hlt : i < c.raw.length) :
    ∃ w, (c.promoteAll u).raw[i]? = some (Cow.Owned w) := by
  induction u generalizing c with
  | nil => cases hmem
  | cons a as ih =>
    simp only [LazyVec.promoteAll]
    rcases List.mem_cons.1 hmem with rfl | hmem'
    · obtain ⟨w, hw⟩ := LazyVec.promote_owned_self c i hlt
      exact ⟨w, LazyVec.promoteAll_owned_mono as (c.promote i) i w hw⟩
    · exact ih (c.promote a) hmem' (by rw [LazyVec.promote_raw_length]; exact hlt)

theorem LazyVec.promoteAll_raw_getElem_not_mem {T : Type} (u : List Nat)
    (c : LazyVec T) (j : Nat) (h : j ∉ u) :
    (c.promoteAll u).raw[j]? = c.raw[j]? := by
  induction u generalizing c with
  | nil => rfl
  | cons a as ih =>
    simp only [LazyVec.promoteAll]
    have hj : j ≠ a := fun hja => h (hja ▸ List.mem_cons_self a as)
    rw [ih (c.promote a) (fun hmem => h (List.mem_cons_of_mem a hmem)),
        LazyVec.promote_raw_getElem_ne c a j (Ne.symm hj)]

theorem LazyVec.get_disjoint_mut_of_nodup {T : Type} (c : LazyVec T)
    (idxs : List Nat) (hnd : idxs.Nodup) (hb : ∀ i ∈ idxs, i < c.raw.length) :
    c.get_disjoint_mut idxs = some (idxs, c.promoteAll idxs) := by
  have hu : LazyVec.uniqueFirst idxs = idxs := LazyVec.uniqueFirst_eq_self hnd
  unfold LazyVec.get_disjoint_mut
  rw [hu, if_neg (lt_irrefl idxs.length)]
  have hany : (idxs.any fun i => c.raw.length ≤ i) = false := by
    rw [List.any_eq_false]
    intro x hx
    simp only [decide_eq_true_eq]
    exact not_le.mpr (hb x hx)
  rw [hany]
  simp

theorem LazyVec.index_writeThrough_ne {T : Type} (c : LazyVec T) (i j : Nat)
    (v : T) (h : i ≠ j) :
    (c.writeThrough i v).index j = c.index j := by
  simp only [LazyVec.index, LazyVec.writeThrough]
  rw [List.getElem?_set_ne h]

theorem LazyVec.index_writeThrough_self {T : Type} (c : LazyVec T) (i : Nat)
    (v : T) (hlen : i < c.len) (hraw : i < c.raw.length) :
    (c.writeThrough i v).index i = some v := by
  simp only [LazyVec.index, LazyVec.writeThrough]
  rw [if_pos hlen, List.getElem?_set_eq_of_lt _ hraw]
  rfl

theorem LazyVec.wf_with_len {T : Type} (label : String) (n : Nat) (d : T) :
    LazyVec.WF (LazyVec.with_len label n d) := by
  simp [LazyVec.WF, LazyVec.with_len]

theorem LazyVec.wf_grow_to {T : Type} (c : LazyVec T) (n : Nat)
    (h : LazyVec.WF c) : LazyVec.WF (c.grow_to n) := by
  unfold LazyVec.WF at h ⊢
  unfold LazyVec.grow_to
  split
  · simp [LazyVec.vecResize_length]
  · exact h

theorem LazyVec.wf_push {T : Type} (c : LazyVec T) (v : T)
    (h : LazyVec.WF c) : LazyVec.WF (c.push v).2 := by
  unfold LazyVec.WF at h ⊢
  unfold LazyVec.push
  split
  · show c.len + 1 ≤ (c.raw.set c.len (Cow.Owned v)).length
    rw [List.length_set]
    omega
  · show c.len ≤ (c.raw ++ [Cow.Owned v]).length
    rw [List.length_append]
    omega

theorem LazyVec.wf_pop {T : Type} (c : LazyVec T) (v : T) (c' : LazyVec T)
    (h : c.pop = some (v, c')) : LazyVec.WF c' := by
  unfold LazyVec.pop at h
  split at h
  · split at h
    · cases h
    · split at h
      · injection h with h'
        injection h' with h1 h2
        subst h2
        unfold LazyVec.WF
        simp only [List.length_set]
        omega
      · cases h
  · cases h

theorem LazyVec.wf_reinit {T : Type} (c : LazyVec T) (n : Nat) (c' : LazyVec T)
    (hwf : LazyVec.WF c) (h : c.reinit n = some c') : LazyVec.WF c' := by
  unfold LazyVec.reinit at h
  have hg := LazyVec.wf_grow_to c n hwf
  split at h
  · injection h with h'
    subst h'
    unfold LazyVec.WF at hg ⊢
    simp only [LazyVec.setSharedBelow_length]
    exact hg
  · cases h

theorem LazyVec.wf_index_mut {T : Type} (c : LazyVec T) (idx : Nat) (v : T)
    (c' : LazyVec T) (hwf : LazyVec.WF c) (h : c.index_mut idx = some (v, c')) :
    LazyVec.WF c' := by
  unfold LazyVec.index_mut at h
  split at h
  · split at h
    · injection h with h'
      injection h' with h1 h2
      subst h2
      unfold LazyVec.WF at hwf ⊢
      simp only [List.length_set]
      exact hwf
    · cases h
  · cases h

theorem LazyVec.wf_get_disjoint_mut {T : Type} (c : LazyVec T)
    (idxs r : List Nat) (c' : LazyVec T) (hwf : LazyVec.WF c)
    (h : c.get_disjoint_mut idxs = some (r, c')) : LazyVec.WF c' := by
  unfold LazyVec.get_disjoint_mut at h
  split at h
  · cases h
  · split at h
    · cases h
    · injection h with h'
      injection h' with h1 h2
      subst h2
      unfold LazyVec.WF at hwf ⊢
      rw [LazyVec.promoteAll_len, LazyVec.promoteAll_raw_length]
      exact hwf

/-! ## Claim theorems -/

/-- C1, counterexample: the claim says `with_len(label, N, default)` yields
`len() == 0`; on the code `with_len("l", 1, 0)` yields `len() == 1` (the
`len` field is set to the capacity argument). -/
theorem C1_counterexample : (LazyVec.with_len "l" 1 (0 : Nat)).len ≠ 0 := by
  decide

/-- C1, amended: after `with_len(label, N, default)` the logical length is
`N` (not 0), the physical capacity is exactly `N` (hence at least `N`),
and every indexed read at an offset `i < N` succeeds, returning the
default value; no offset below `N` is outside the addressable range. -/
theorem C1_amended {T : Type} (label : String) (N : Nat) (d : T) :
    (LazyVec.with_len label N d).len = N ∧
    (LazyVec.with_len label N d).raw.length = N ∧
    ∀ i, i < N → (LazyVec.with_len label N d).index i = some d := by
  refine ⟨rfl, by simp [LazyVec.with_len], ?_⟩
  intro i hi
  simp [LazyVec.index, LazyVec.with_len, List.getElem?_replicate, hi, Cow.value]

/-- C1 witness: the amended claim evaluated at `with_len("l", 3, 5)`, offset 0. -/
theorem C1_amended_witness :
    (0 : Nat) < 3 ∧ (LazyVec.with_len "l" 3 (5 : Nat)).index 0 = some 5 :=
  ⟨by decide, (C1_amended "l" 3 5).2.2 0 (by decide)⟩

/-- C2, counterexample: the claim says `grow_to` never changes `len()` and
is a no-op for `new_len ≤ capacity`. Take the container built by
`with_len("l", 0, 0)` then `push(7)` (logical length 0, capacity 1):
`grow_to(1)` has `new_len = 1 ≤ capacity = 1`, yet it changes `len()`
from 0 to 1. -/
theorem C2_counterexample :
    (((LazyVec.with_len "l" 0 (0 : Nat)).push 7).2.grow_to 1).len ≠
      ((LazyVec.with_len "l" 0 (0 : Nat)).push 7).2.len := by
  decide

/-- C2, amended: `grow_to(new_len)` compares `new_len` against the `len`
field, not the physical capacity. When `new_len ≤ len()` it is a no-op
(capacity and every cell state unchanged). When `new_len > len()` it
resizes the backing store to exactly `new_len` — preserving the cells
below `new_len` that already exist, filling new slots with Shared cells
(and truncating a longer store) — and sets the logical length to
`new_len`; so `len()` afterwards is `max(len, new_len)`. -/
theorem C2_amended {T : Type} (c : LazyVec T) (n : Nat) :
    (c.grow_to n).len = max c.len n ∧
    (n ≤ c.len → c.grow_to n = c) ∧
    (c.len < n →
      (c.grow_to n).raw.length = n ∧
      (∀ j, j < n → j < c.raw.length → (c.grow_to n).raw[j]? = c.raw[j]?) ∧
      (∀ j, c.raw.length ≤ j → j < n →
        (c.grow_to n).raw[j]? = some Cow.Shared)) := by
  refine ⟨?_, ?_, ?_⟩
  · unfold LazyVec.grow_to
    split
    · next hlt => simp [Nat.max_eq_right (Nat.le_of_lt hlt)]
    · next hge => simp [Nat.max_eq_left (Nat.le_of_not_lt hge)]
  · intro h
    unfold LazyVec.grow_to
    rw [if_neg (Nat.not_lt.mpr h)]
  · intro h
    unfold LazyVec.grow_to
    rw [if_pos h]
    refine ⟨LazyVec.vecResize_length _ _ _, ?_, ?_⟩
    · intro j hjn hjl
      show (LazyVec.vecResize c.raw n Cow.Shared)[j]? = c.raw[j]?
      unfold LazyVec.vecResize
      split
      · exact List.getElem?_take_of_lt hjn
      · rw [List.getElem?_append, if_pos hjl]
    · intro j hjl hjn
      show (LazyVec.vecResize c.raw n Cow.Shared)[j]? = some Cow.Shared
      unfold LazyVec.vecResize
      split
      · next hle => omega
      · rw [List.getElem?_append_right hjl, List.getElem?_replicate,
            if_pos (by omega)]

/-- C2 witness: no-op branch at `with_len("w", 1, 0)` with `n = 1`, and
grow branch with `n = 3`. -/
theorem C2_amended_witness :
    (1 : Nat) ≤ (LazyVec.with_len "w" 1 (0 : Nat)).len ∧
    (LazyVec.with_len "w" 1 (0 : Nat)).grow_to 1 = LazyVec.with_len "w" 1 (0 : Nat) ∧
    (LazyVec.with_len "w" 1 (0 : Nat)).len < 3 ∧
    ((LazyVec.with_len "w" 1 (0 : Nat)).grow_to 3).raw.length = 3 :=
  ⟨by decide, (C2_amended (LazyVec.with_len "w" 1 (0 : Nat)) 1).2.1 (by decide),
   by decide, ((C2_amended (LazyVec.with_len "w" 1 (0 : Nat)) 3).2.2 (by decide)).1⟩

/-- C3, code bug: pushing values and popping them back does not behave as
a stack. Pushing `7` onto the empty container `with_len("v", 0, 0)` and
then popping fails (`pop` decrements `self.len` when it is 0, a `usize`
underflow) instead of yielding `7` with `len() == 0`. Moreover with
`with_len("w", 1, 0)`, pushing `7` and then `8` stores both at the same
physical slot 1 (the append branch of `push` does not increment `len`),
so `8` overwrites `7` and the reversed sequence can never come back. -/
theorem C3_push_pop_bug :
    ((LazyVec.with_len "v" 0 (0 : Nat)).push 7).2.pop = none ∧
    ((((LazyVec.with_len "w" 1 (0 : Nat)).push 7).2.push 8).2).raw
      = [Cow.Shared, Cow.Owned 8] := by
  decide

/-- C4, code bug: the spec scenario on capacity 4 with default "x".
The code returns index 4 for `push("a")` (the claim says 0), index 4
again for `push("b")` — which overwrites `"a"` in slot 4 — and `pop()`
then fails with an out-of-bounds access at `raw[5]` (the claim says it
returns `"b"` leaving `len() == 1`). -/
theorem C4_scenario_bug :
    ((LazyVec.with_len "v" 4 "x").push "a").1 = 4 ∧
    (((LazyVec.with_len "v" 4 "x").push "a").2.push "b").1 = 4 ∧
    ((((LazyVec.with_len "v" 4 "x").push "a").2.push "b").2).raw[4]?
      = some (Cow.Owned "b") ∧
    (((LazyVec.with_len "v" 4 "x").push "a").2.push "b").2.pop = none := by
  decide

/-- C6: `get_disjoint_mut` fails whenever the supplied offsets contain a
repetition (the deduplicated count is smaller than `N`; the refill of the
`N`-array from the `unique()` iterator hits `next().unwrap()` on an
exhausted iterator). In particular `get_disjoint_mut([i, i])` fails for
every offset `i`. -/
theorem C6_duplicate_offsets_fail {T : Type} (c : LazyVec T) :
    (∀ idxs : List Nat, (LazyVec.uniqueFirst idxs).length < idxs.length →
      c.get_disjoint_mut idxs = none) ∧
    (∀ i : Nat, c.get_disjoint_mut [i, i] = none) := by
  constructor
  · intro idxs h
    unfold LazyVec.get_disjoint_mut
    rw [if_pos h]
  · intro i
    unfold LazyVec.get_disjoint_mut
    rw [if_pos (by simp [LazyVec.uniqueFirst, LazyVec.uniqueAux])]

/-- C6 witness: duplicates `[0, 0, 1]` and `[1, 1]` on a concrete container. -/
theorem C6_witness :
    (LazyVec.uniqueFirst [0, 0, 1]).length < 3 ∧
    (LazyVec.with_len "w" 2 (0 : Nat)).get_disjoint_mut [0, 0, 1] = none ∧
    (LazyVec.with_len "w" 2 (0 : Nat)).get_disjoint_mut [1, 1] = none :=
  ⟨by decide,
   (C6_duplicate_offsets_fail (LazyVec.with_len "w" 2 (0 : Nat))).1 [0, 0, 1] (by decide),
   (C6_duplicate_offsets_fail (LazyVec.with_len "w" 2 (0 : Nat))).2 1⟩

/-- C8: `pop` on a container with `logical_length == 0` fails (the
decrement of `self.len` underflows, a fatal panic, after the swap), and
`pop` can only succeed when `logical_length > 0`. -/
theorem C8_pop_empty_fails {T : Type} (c : LazyVec T) :
    (c.len = 0 → c.pop = none) ∧
    (∀ (v : T) (c' : LazyVec T), c.pop = some (v, c') → 0 < c.len) := by
  have hnone : c.len = 0 → c.pop = none := by
    intro h0
    unfold LazyVec.pop
    split
    · simp [h0]
    · rfl
  refine ⟨hnone, ?_⟩
  intro v c' h
  rcases Nat.eq_zero_or_pos c.len with h0 | hpos
  · rw [hnone h0] at h
    cases h
  · exact hpos

/-- C8 witness: `pop` on the freshly constructed empty container. -/
theorem C8_witness :
    (LazyVec.with_len "v" 0 (0 : Nat)).len = 0 ∧
    (LazyVec.with_len "v" 0 (0 : Nat)).pop = none :=
  ⟨rfl, (C8_pop_empty_fails (LazyVec.with_len "v" 0 (0 : Nat))).1 rfl⟩

/-- C5, counterexample: the claim promises that a write through a
`get_disjoint_mut` reference at an in-capacity offset is observable
through a subsequent ordinary indexed read at the same offset. Reach the
state `len = 1`, capacity 3 via `with_len("v", 2, 0)`, `push 7`, `pop`;
`get_disjoint_mut([0, 1, 2])` succeeds, but after writing 42 through the
reference at offset 2 the ordinary indexed read at offset 2 fails
(it bounds-checks against the logical length 1), so the write is not
observable there. -/
theorem C5_counterexample :
    ((LazyVec.with_len "v" 2 (0 : Nat)).push 7).2.pop
      = some (7, ⟨"v", 1, [Cow.Shared, Cow.Shared, Cow.Shared], 0⟩) ∧
    (⟨"v", 1, [Cow.Shared, Cow.Shared, Cow.Shared], 0⟩ :
        LazyVec Nat).get_disjoint_mut [0, 1, 2]
      = some ([0, 1, 2], ⟨"v", 1, [Cow.Owned 0, Cow.Owned 0, Cow.Owned 0], 0⟩) ∧
    ((⟨"v", 1, [Cow.Owned 0, Cow.Owned 0, Cow.Owned 0], 0⟩ :
        LazyVec Nat).writeThrough 2 42).index 2 = none := by
  decide

/-- C5, amended: for pairwise-distinct in-capacity offsets `i, j, k`,
`get_disjoint_mut([i, j, k])` succeeds, the reference at each position
addresses exactly the cell at the supplied offset at that position
(promoted to Owned), writing through any one reference changes nothing
observed through the other two, and each write is observable through a
subsequent ordinary indexed read at the same offset provided that offset
is below the logical length (reads at offsets `≥ len()` fail the
bounds check of the indexing operation). -/
theorem C5_amended {T : Type} (c : LazyVec T) (i j k : Nat)
    (hij : i ≠ j) (hik : i ≠ k) (hjk : j ≠ k)
    (hi : i < c.raw.length) (hj : j < c.raw.length) (hk : k < c.raw.length) :
    c.get_disjoint_mut [i, j, k] = some ([i, j, k], c.promoteAll [i, j, k]) ∧
    (c.promoteAll [i, j, k]).len = c.len ∧
    (c.promoteAll [i, j, k]).raw.length = c.raw.length ∧
    (∀ p ∈ [i, j, k], ∃ w,
      (c.promoteAll [i, j, k]).raw[p]? = some (Cow.Owned w)) ∧
    (∀ v : T,
      ((c.promoteAll [i, j, k]).writeThrough i v).index j
          = (c.promoteAll [i, j, k]).index j ∧
      ((c.promoteAll [i, j, k]).writeThrough i v).index k
          = (c.promoteAll [i, j, k]).index k ∧
      ((c.promoteAll [i, j, k]).writeThrough j v).index i
          = (c.promoteAll [i, j, k]).index i ∧
      ((c.promoteAll [i, j, k]).writeThrough j v).index k
          = (c.promoteAll [i, j, k]).index k ∧
      ((c.promoteAll [i, j, k]).writeThrough k v).index i
          = (c.promoteAll [i, j, k]).index i ∧
      ((c.promoteAll [i, j, k]).writeThrough k v).index j
          = (c.promoteAll [i, j, k]).index j ∧
      (i < c.len → ((c.promoteAll [i, j, k]).writeThrough i v).index i = some v) ∧
      (j < c.len → ((c.promoteAll [i, j, k]).writeThrough j v).index j = some v) ∧
      (k < c.len → ((c.promoteAll [i, j, k]).writeThrough k v).index k = some v)) := by
  have hnd : List.Nodup [i, j, k] := by simp [hij, hik, hjk]
  have hb : ∀ p ∈ [i, j, k], p < c.raw.length := by
    intro p hp
    simp only [List.mem_cons, List.not_mem_nil, or_false] at hp
    rcases hp with rfl | rfl | rfl <;> assumption
  have hlen : (c.promoteAll [i, j, k]).len = c.len :=
    LazyVec.promoteAll_len [i, j, k] c
  have hraw : (c.promoteAll [i, j, k]).raw.length = c.raw.length :=
    LazyVec.promoteAll_raw_length [i, j, k] c
  refine ⟨LazyVec.get_disjoint_mut_of_nodup c [i, j, k] hnd hb, hlen, hraw,
    ?_, ?_⟩
  · intro p hp
    exact LazyVec.promoteAll_owned [i, j, k] c p hp (hb p hp)
  · intro v
    refine ⟨LazyVec.index_writeThrough_ne _ i j v hij,
      LazyVec.index_writeThrough_ne _ i k v hik,
      LazyVec.index_writeThrough_ne _ j i v (Ne.symm hij),
      LazyVec.index_writeThrough_ne _ j k v hjk,
      LazyVec.index_writeThrough_ne _ k i v (Ne.symm hik),
      LazyVec.index_writeThrough_ne _ k j v (Ne.symm hjk), ?_, ?_, ?_⟩
    · intro hil
      exact LazyVec.index_writeThrough_self _ i v (by rw [hlen]; exact hil)
        (by rw [hraw]; exact hi)
    · intro hjl
      exact LazyVec.index_writeThrough_self _ j v (by rw [hlen]; exact hjl)
        (by rw [hraw]; exact hj)
    · intro hkl
      exact LazyVec.index_writeThrough_self _ k v (by rw [hlen]; exact hkl)
        (by rw [hraw]; exact hk)

/-- C5 witness: the amended claim at `with_len("w", 3, 0)` with offsets
0, 1, 2 and value 42 written through the first reference. -/
theorem C5_amended_witness :
    (0 : Nat) < (LazyVec.with_len "w" 3 (0 : Nat)).raw.length ∧
    (LazyVec.with_len "w" 3 (0 : Nat)).get_disjoint_mut [0, 1, 2]
      = some ([0, 1, 2], (LazyVec.with_len "w" 3 (0 : Nat)).promoteAll [0, 1, 2]) ∧
    (((LazyVec.with_len "w" 3 (0 : Nat)).promoteAll [0, 1, 2]).writeThrough 0 42).index 1
      = ((LazyVec.with_len "w" 3 (0 : Nat)).promoteAll [0, 1, 2]).index 1 ∧
    (((LazyVec.with_len "w" 3 (0 : Nat)).promoteAll [0, 1, 2]).writeThrough 0 42).index 0
      = some 42 := by
  have h := C5_amended (LazyVec.with_len "w" 3 (0 : Nat)) 0 1 2
    (by decide) (by decide) (by decide) (by decide) (by decide) (by decide)
  exact ⟨by decide, h.1, (h.2.2.2.2 42).1, (h.2.2.2.2 42).2.2.2.2.2.2.1 (by decide)⟩

/-- C7: `get_disjoint_mut` does not bounds-check the offsets against the
logical length: for pairwise-distinct offsets that are each within the
physical capacity the call succeeds — returning references to the cells
at exactly those offsets and promoting them — with no constraint relating
the offsets to `len()`, so physically-allocated but logically-inactive
cells are addressable. -/
theorem C7_no_logical_bounds_check {T : Type} (c : LazyVec T)
    (idxs : List Nat) (hnd : idxs.Nodup)
    (hb : ∀ i ∈ idxs, i < c.raw.length) :
    c.get_disjoint_mut idxs = some (idxs, c.promoteAll idxs) ∧
    (c.promoteAll idxs).len = c.len :=
  ⟨LazyVec.get_disjoint_mut_of_nodup c idxs hnd hb,
   LazyVec.promoteAll_len idxs c⟩

/-- C7 witness: the container built by `with_len("v", 0, 0)` then
`push(7)` has logical length 0 and capacity 1; `get_disjoint_mut([0])`
succeeds although offset 0 is `≥ len()`. -/
theorem C7_witness :
    ((LazyVec.with_len "v" 0 (0 : Nat)).push 7).2.len = 0 ∧
    ((LazyVec.with_len "v" 0 (0 : Nat)).push 7).2.get_disjoint_mut [0]
      = some ([0], ((LazyVec.with_len "v" 0 (0 : Nat)).push 7).2.promoteAll [0]) :=
  ⟨by decide,
   (C7_no_logical_bounds_check ((LazyVec.with_len "v" 0 (0 : Nat)).push 7).2 [0]
     (by decide) (by decide)).1⟩

/-- C9: on a container satisfying the length invariant, indexed read and
indexed mutable access at an offset `≥ len()` both fail, and at an offset
`< len()` both succeed: the read returns the value of the cell at that
offset (the default for a Shared cell) and the mutable access returns
that same value while promoting exactly that cell to Owned, leaving every
other cell and the logical length unchanged. -/
theorem C9_index_bounds_checked {T : Type} (c : LazyVec T) (idx : Nat)
    (hwf : LazyVec.WF c) :
    (c.len ≤ idx → c.index idx = none ∧ c.index_mut idx = none) ∧
    (idx < c.len →
      ∃ h : idx < c.raw.length,
        c.index idx = some (Cow.value c.default (c.raw.get ⟨idx, h⟩)) ∧
        ∃ c', c.index_mut idx
            = some (Cow.value c.default (c.raw.get ⟨idx, h⟩), c') ∧
          c'.len = c.len ∧
          c'.raw[idx]?
            = some (Cow.Owned (Cow.value c.default (c.raw.get ⟨idx, h⟩))) ∧
          ∀ j, j ≠ idx → c'.raw[j]? = c.raw[j]?) := by
  constructor
  · intro h
    constructor
    · simp [LazyVec.index, Nat.not_lt.mpr h]
    · simp [LazyVec.index_mut, Nat.not_lt.mpr h]
  · intro h
    have hr : idx < c.raw.length := lt_of_lt_of_le h hwf
    refine ⟨hr, ?_, ?_⟩
    · simp only [LazyVec.index, if_pos h]
      rw [List.getElem?_eq_getElem hr]
      rfl
    · refine ⟨⟨c.label, c.len,
        c.raw.set idx (Cow.Owned (Cow.value c.default (c.raw.get ⟨idx, hr⟩))),
        c.default⟩, ?_, rfl, ?_, ?_⟩
      · simp only [LazyVec.index_mut, if_pos h]
        rw [List.getElem?_eq_getElem hr]
        rfl
      · exact List.getElem?_set_eq_of_lt _ hr
      · intro j hj
        exact List.getElem?_set_ne (Ne.symm hj)

/-- C9 witness: `with_len("w", 2, 5)` — read at in-range offset 1 yields
the default 5, while offset 3 fails for both read and mutable access. -/
theorem C9_witness :
    LazyVec.WF (LazyVec.with_len "w" 2 (5 : Nat)) ∧
    (LazyVec.with_len "w" 2 (5 : Nat)).index 3 = none ∧
    (LazyVec.with_len "w" 2 (5 : Nat)).index_mut 3 = none ∧
    (LazyVec.with_len "w" 2 (5 : Nat)).index 1 = some 5 := by
  refine ⟨by decide, ?_, ?_, ?_⟩
  · exact ((C9_index_bounds_checked (LazyVec.with_len "w" 2 (5 : Nat)) 3
      (by decide)).1 (by decide)).1
  · exact ((C9_index_bounds_checked (LazyVec.with_len "w" 2 (5 : Nat)) 3
      (by decide)).1 (by decide)).2
  · obtain ⟨hr, hread, _⟩ := (C9_index_bounds_checked
      (LazyVec.with_len "w" 2 (5 : Nat)) 1 (by decide)).2 (by decide)
    rw [hread]
    rfl

/-- C10: the invariant `0 ≤ logical_length ≤ physical_capacity` (for `Nat`
the lower bound is automatic, so `WF c` is `c.len ≤ c.raw.length`) holds
after construction and is preserved by every state-changing public
operation executed under its stated precondition (`pop` and the others
preserve it whenever they succeed at all). -/
theorem C10_invariant (T : Type) :
    (∀ (label : String) (n : Nat) (d : T),
      LazyVec.WF (LazyVec.with_len label n d)) ∧
    (∀ (c : LazyVec T) (n : Nat), LazyVec.WF c → LazyVec.WF (c.grow_to n)) ∧
    (∀ (c : LazyVec T) (v : T), LazyVec.WF c → LazyVec.WF (c.push v).2) ∧
    (∀ (c : LazyVec T) (v : T) (c' : LazyVec T),
      c.pop = some (v, c') → LazyVec.WF c') ∧
    (∀ (c : LazyVec T) (n : Nat) (c' : LazyVec T),
      LazyVec.WF c → c.reinit n = some c' → LazyVec.WF c') ∧
    (∀ (c : LazyVec T) (idx : Nat) (v : T) (c' : LazyVec T),
      LazyVec.WF c → c.index_mut idx = some (v, c') → LazyVec.WF c') ∧
    (∀ (c : LazyVec T) (idxs r : List Nat) (c' : LazyVec T),
      LazyVec.WF c → c.get_disjoint_mut idxs = some (r, c') → LazyVec.WF c') :=
  ⟨LazyVec.wf_with_len, LazyVec.wf_grow_to, LazyVec.wf_push, LazyVec.wf_pop,
   LazyVec.wf_reinit, LazyVec.wf_index_mut, LazyVec.wf_get_disjoint_mut⟩

/-- C10 witness: the invariant evaluated along a concrete operation
sequence (construction, growth, push, then pop). -/
theorem C10_witness :
    LazyVec.WF (LazyVec.with_len "w" 2 (0 : Nat)) ∧
    LazyVec.WF ((LazyVec.with_len "w" 2 (0 : Nat)).grow_to 5) ∧
    LazyVec.WF ((LazyVec.with_len "w" 2 (0 : Nat)).push 3).2 ∧
    LazyVec.WF (⟨"w", 1, [Cow.Shared, Cow.Shared, Cow.Shared], 0⟩ : LazyVec Nat) :=
  ⟨(C10_invariant Nat).1 "w" 2 0,
   (C10_invariant Nat).2.1 (LazyVec.with_len "w" 2 (0 : Nat)) 5 (by decide),
   (C10_invariant Nat).2.2.1 (LazyVec.with_len "w" 2 (0 : Nat)) 3 (by decide),
   (C10_invariant Nat).2.2.2.1 ((LazyVec.with_len "w" 2 (0 : Nat)).push 3).2 3
     ⟨"w", 1, [Cow.Shared, Cow.Shared, Cow.Shared], 0⟩ (by decide)⟩
